import Mathlib

/-!
Verification of the task manager program (src/task_manager.py).

The development shallowly embeds the data model and the operations of the
program: calendar dates, task records, the filtered per-user view, the
edit-eligibility logic with its three mutations, the statistics
aggregation performed by the report and display functions, and the
flat-file serialization of the task store.  File contents are modelled as
lists of characters, user input streams as lists of strings, and the
fallible parts (dictionary lookups that can raise KeyError, parsing that
can raise ValueError, input loops that can run forever) return Option.
-/

namespace TaskManager

/-- A calendar date as carried by the datetime values of the program.
The program only ever formats and compares day, month and year. -/
structure Date where
  day : Nat
  month : Nat
  year : Nat
deriving DecidableEq

/-- Strict comparison of dates, in calendar order (models datetime
comparison at date granularity). -/
def dateLtB (a b : Date) : Bool :=
  if a.year ≠ b.year then a.year < b.year
  else if a.month ≠ b.month then a.month < b.month
  else a.day < b.day

/-- Non-strict comparison of dates, the complement of the strict one. -/
def dateLeB (a b : Date) : Bool := !(dateLtB b a)

/-- A task record, the dictionary built by create_task_list and
add_new_task_to_task_list in the source. -/
structure Task where
  number : Nat
  username : String
  title : String
  description : String
  due_date : Date
  assigned_date : Date
  completed : Bool
deriving DecidableEq

/-- A task as it appears in a per-user view: the record together with the
session-local index the source stores under the key task_number. -/
structure NumberedTask where
  task : Task
  task_number : Nat
deriving DecidableEq

/-- Helper for view_my_tasks_option: walks the full task list carrying the
enumerate counter i (which starts at 1 and advances on every element of
the full list), keeping the tasks of the given user annotated with i. -/
def viewMyAux (curr_user : String) : Nat → List Task → List NumberedTask
  | _, [] => []
  | i, t :: ts =>
    if t.username = curr_user then
      ⟨t, i⟩ :: viewMyAux curr_user (i + 1) ts
    else
      viewMyAux curr_user (i + 1) ts

/-- The filtered per-user view of view_my_tasks_option in the source: the
loop enumerates the full task list from 1 and stores the enumeration
index as task_number on each task owned by curr_user. -/
def view_my_tasks_option (curr_user : String) (task_list : List Task) :
    List NumberedTask :=
  viewMyAux curr_user 1 task_list

/-- Annotates each task of a list with its 1-based position in that list,
starting the numbering at i. -/
def numberFromAux (i : Nat) : List Task → List NumberedTask
  | [] => []
  | t :: ts => ⟨t, i⟩ :: numberFromAux (i + 1) ts

/-- Modelled from the spec wording for tasksFor: first filter the task
list to the tasks of the given user, then annotate each with its 1-based
position within the filtered sequence. -/
def tasksForSpec (u : String) (ts : List Task) : List NumberedTask :=
  numberFromAux 1 (ts.filter (fun t => t.username = u))

/-- Per-user counters of the statistics aggregation, one entry of the
user_stats dictionary in the source. -/
structure UserStats where
  assigned : Nat
  completedTasks : Nat
  uncompletedTasks : Nat
  overdueTasks : Nat
deriving DecidableEq

/-- The running state of the aggregation loop: the three global counters
and the per-user table, an insertion-ordered mapping modelled as an
association list (Python dictionaries preserve insertion order). -/
structure StatsAcc where
  completedT : Nat
  uncompletedT : Nat
  overdueT : Nat
  userStats : List (String × UserStats)
deriving DecidableEq

/-- Indexing assignment user_stats[u] = f (user_stats[u]) on the ordered
mapping: none models the KeyError raised when u has no entry. -/
def updateUser : List (String × UserStats) → String → (UserStats → UserStats) →
    Option (List (String × UserStats))
  | [], _, _ => none
  | (k, v) :: rest, u, f =>
    if k = u then some ((k, f v) :: rest)
    else (updateUser rest u f).map (fun m => (k, v) :: m)

/-- The initial per-user table: one zeroed entry per username of the
credential mapping, in its order. -/
def initUserStats (username_password : List (String × String)) :
    List (String × UserStats) :=
  username_password.map (fun p => (p.1, ⟨0, 0, 0, 0⟩))

/-- One iteration of the aggregation loop of generate_reports_option
(lines 590-612 of the source): classify the task as completed or
uncompleted (counting it overdue when uncompleted and due on or before
the current date), updating the global counters and the user entry, then
increment the user assigned counter.  A missing user entry is a KeyError,
modelled as none. -/
def stepStatsGR (current_date : Date) (acc : StatsAcc) (t : Task) :
    Option StatsAcc :=
  match
    (if t.completed then
      match updateUser acc.userStats t.username
          (fun s => { s with completedTasks := s.completedTasks + 1 }) with
      | none => none
      | some m =>
        some { acc with completedT := acc.completedT + 1, userStats := m }
    else
      match updateUser acc.userStats t.username
          (fun s => { s with uncompletedTasks := s.uncompletedTasks + 1 }) with
      | none => none
      | some m =>
        if dateLeB t.due_date current_date then
          match updateUser m t.username
              (fun s => { s with overdueTasks := s.overdueTasks + 1 }) with
          | none => none
          | some m2 =>
            some
              { acc with
                uncompletedT := acc.uncompletedT + 1
                overdueT := acc.overdueT + 1
                userStats := m2 }
        else
          some
            { acc with
              uncompletedT := acc.uncompletedT + 1
              userStats := m }) with
  | none => none
  | some acc3 =>
    match updateUser acc3.userStats t.username
        (fun s => { s with assigned := s.assigned + 1 }) with
    | none => none
    | some m => some { acc3 with userStats := m }

/-- The aggregation loop of generate_reports_option over all tasks. -/
def statsLoopGR (current_date : Date) : StatsAcc → List Task → Option StatsAcc
  | acc, [] => some acc
  | acc, t :: ts =>
    match stepStatsGR current_date acc t with
    | none => none
    | some acc2 => statsLoopGR current_date acc2 ts

/-- One iteration of the aggregation loop of display_stats_option (lines
719-741 of the source), a line-for-line duplicate of the loop body of
generate_reports_option. -/
def stepStatsDS (current_date : Date) (acc : StatsAcc) (t : Task) :
    Option StatsAcc :=
  match
    (if t.completed then
      match updateUser acc.userStats t.username
          (fun s => { s with completedTasks := s.completedTasks + 1 }) with
      | none => none
      | some m =>
        some { acc with completedT := acc.completedT + 1, userStats := m }
    else
      match updateUser acc.userStats t.username
          (fun s => { s with uncompletedTasks := s.uncompletedTasks + 1 }) with
      | none => none
      | some m =>
        if dateLeB t.due_date current_date then
          match updateUser m t.username
              (fun s => { s with overdueTasks := s.overdueTasks + 1 }) with
          | none => none
          | some m2 =>
            some
              { acc with
                uncompletedT := acc.uncompletedT + 1
                overdueT := acc.overdueT + 1
                userStats := m2 }
        else
          some
            { acc with
              uncompletedT := acc.uncompletedT + 1
              userStats := m }) with
  | none => none
  | some acc3 =>
    match updateUser acc3.userStats t.username
        (fun s => { s with assigned := s.assigned + 1 }) with
    | none => none
    | some m => some { acc3 with userStats := m }

/-- The aggregation loop of display_stats_option over all tasks. -/
def statsLoopDS (current_date : Date) : StatsAcc → List Task → Option StatsAcc
  | acc, [] => some acc
  | acc, t :: ts =>
    match stepStatsDS current_date acc t with
    | none => none
    | some acc2 => statsLoopDS current_date acc2 ts

/-- The Python division operator on numbers: raises ZeroDivisionError on a
zero divisor, modelled as none. -/
def pydiv (a b : ℚ) : Option ℚ := if b = 0 then none else some (a / b)

/-- The global figures a statistics pass produces: the four counts and the
two global percentages (kept as exact quotients; none records a division
fault). -/
structure GlobalFigures where
  total : Nat
  completedT : Nat
  uncompletedT : Nat
  overdueT : Nat
  pctUncompleted : Option ℚ
  pctOverdue : Option ℚ
deriving DecidableEq

/-- The per-user figures a statistics pass produces for one username: the
four counts and the four percentages. -/
structure UserRow where
  username : String
  assigned : Nat
  completedTasks : Nat
  uncompletedTasks : Nat
  overdueTasks : Nat
  pctAssigned : Option ℚ
  pctCompleted : Option ℚ
  pctUncompleted : Option ℚ
  pctOverdue : Option ℚ
deriving DecidableEq

/-- The per-user block of generate_reports_option (lines 641-662): the
assigned share divides by the global total, the other three percentages
divide by the same user's assigned count, each behind its positivity
guard. -/
def mkUserRowGR (total_tasks : Nat) (entry : String × UserStats) : UserRow :=
  let s := entry.2
  { username := entry.1
    assigned := s.assigned
    completedTasks := s.completedTasks
    uncompletedTasks := s.uncompletedTasks
    overdueTasks := s.overdueTasks
    pctAssigned :=
      if 0 < total_tasks then
        (pydiv (s.assigned : ℚ) (total_tasks : ℚ)).map (fun q => q * 100)
      else some 0
    pctCompleted :=
      if 0 < s.assigned then
        (pydiv (s.completedTasks : ℚ) (s.assigned : ℚ)).map (fun q => q * 100)
      else some 0
    pctUncompleted :=
      if 0 < s.assigned then
        (pydiv (s.uncompletedTasks : ℚ) (s.assigned : ℚ)).map (fun q => q * 100)
      else some 0
    pctOverdue :=
      if 0 < s.assigned then
        (pydiv (s.overdueTasks : ℚ) (s.assigned : ℚ)).map (fun q => q * 100)
      else some 0 }

/-- The per-user block of display_stats_option (lines 767-788), a
duplicate of the one in generate_reports_option. -/
def mkUserRowDS (total_tasks : Nat) (entry : String × UserStats) : UserRow :=
  let s := entry.2
  { username := entry.1
    assigned := s.assigned
    completedTasks := s.completedTasks
    uncompletedTasks := s.uncompletedTasks
    overdueTasks := s.overdueTasks
    pctAssigned :=
      if 0 < total_tasks then
        (pydiv (s.assigned : ℚ) (total_tasks : ℚ)).map (fun q => q * 100)
      else some 0
    pctCompleted :=
      if 0 < s.assigned then
        (pydiv (s.completedTasks : ℚ) (s.assigned : ℚ)).map (fun q => q * 100)
      else some 0
    pctUncompleted :=
      if 0 < s.assigned then
        (pydiv (s.uncompletedTasks : ℚ) (s.assigned : ℚ)).map (fun q => q * 100)
      else some 0
    pctOverdue :=
      if 0 < s.assigned then
        (pydiv (s.overdueTasks : ℚ) (s.assigned : ℚ)).map (fun q => q * 100)
      else some 0 }

/-- The figures computed by generate_reports_option: the per-user table is
seeded from the credential mapping, the loop runs over all tasks, the
total is the length of the accumulated task list, and the percentages are
the guarded quotients of the source.  none models an uncaught exception
inside the computation (the report-file IOError handling is presentation
and out of scope). -/
def generate_reports_option (current_date : Date)
    (username_password : List (String × String)) (tasks : List Task) :
    Option (GlobalFigures × List UserRow) :=
  match statsLoopGR current_date ⟨0, 0, 0, initUserStats username_password⟩ tasks with
  | none => none
  | some acc =>
    let total_tasks := tasks.length
    some
      ( { total := total_tasks
          completedT := acc.completedT
          uncompletedT := acc.uncompletedT
          overdueT := acc.overdueT
          pctUncompleted :=
            if 0 < total_tasks then
              (pydiv (acc.uncompletedT : ℚ) (total_tasks : ℚ)).map
                (fun q => q * 100)
            else some 0
          pctOverdue :=
            if 0 < total_tasks then
              (pydiv (acc.overdueT : ℚ) (total_tasks : ℚ)).map
                (fun q => q * 100)
            else some 0 }
      , acc.userStats.map (mkUserRowGR total_tasks) )

/-- The figures computed by display_stats_option, transcribed from its own
body (a duplicate of the body of generate_reports_option). -/
def display_stats_option (current_date : Date)
    (username_password : List (String × String)) (tasks : List Task) :
    Option (GlobalFigures × List UserRow) :=
  match statsLoopDS current_date ⟨0, 0, 0, initUserStats username_password⟩ tasks with
  | none => none
  | some acc =>
    let total_tasks := tasks.length
    some
      ( { total := total_tasks
          completedT := acc.completedT
          uncompletedT := acc.uncompletedT
          overdueT := acc.overdueT
          pctUncompleted :=
            if 0 < total_tasks then
              (pydiv (acc.uncompletedT : ℚ) (total_tasks : ℚ)).map
                (fun q => q * 100)
            else some 0
          pctOverdue :=
            if 0 < total_tasks then
              (pydiv (acc.overdueT : ℚ) (total_tasks : ℚ)).map
                (fun q => q * 100)
            else some 0 }
      , acc.userStats.map (mkUserRowDS total_tasks) )

/-- The re-prompt loop validate_if_username_registered of the source: if
the candidate is a key of the credential mapping it is returned,
otherwise the next input becomes the candidate.  The remaining inputs are
a finite list; none models the loop running out of inputs (it would
prompt forever). -/
def validate_if_username_registered (task_username : String)
    (username_password : List (String × String)) :
    List String → Option String
  | [] =>
    if task_username ∈ username_password.map Prod.fst then some task_username
    else none
  | x :: rest =>
    if task_username ∈ username_password.map Prod.fst then some task_username
    else validate_if_username_registered x username_password rest

/-- The operator input consumed by one pass of edit_task_details: the
menu choice together with the values typed for that choice.  reassign
carries the first username typed and the further inputs fed to the
validation re-prompt loop; reschedule carries the date the date-input
loop eventually accepts; complete carries the confirmation answer. -/
inductive EditInput where
  | reassign (newName : String) (reprompts : List String)
  | reschedule (newDate : Date)
  | complete (confirm : String)
  | exitChoice
  | invalidChoice
deriving DecidableEq

/-- The status and error messages edit_task_details prints (the colored
prints of the source, with the task-detail dump treated as
presentation). -/
inductive EditMsg where
  | invalidTaskNumber
  | taskLockedCannotEdit
  | usernameUpdated
  | dueDateUpdated
  | completedUpdated
  | noChangeMade
  | invalidOption
deriving DecidableEq

/-- The result of the for loop inside edit_task_details: the task list
(with any in-place mutations), the tasks passed to update_tasks_file in
order, the messages printed, whether a matching task was found, and
whether the loop ended in the early return of the invalid-option
branch. -/
structure LoopRes where
  tasks : List NumberedTask
  writes : List Task
  msgs : List EditMsg
  found : Bool
  early : Bool
deriving DecidableEq

/-- The for loop of edit_task_details (lines 451-503 of the source).  On
the first task whose task_number equals the selector: if the task is
open (not completed and due after the current date) the chosen mutation
runs, persists via update_tasks_file and the loop continues; an invalid
menu choice returns the list at once; the exit choice breaks; a locked
task prints the eligibility message and breaks.  none models the
reassignment validation loop running out of inputs. -/
def editLoopAux (current_date : Date)
    (username_password : List (String × String)) (inp : EditInput)
    (sel : Int) : List NumberedTask → Option LoopRes
  | [] => some ⟨[], [], [], false, false⟩
  | nt :: rest =>
    if (nt.task_number : Int) = sel then
      if (!nt.task.completed) && dateLtB current_date nt.task.due_date then
        match inp with
        | .reassign newName reprompts =>
          match validate_if_username_registered newName username_password
              reprompts with
          | none => none
          | some _v =>
            let t2 := { nt.task with username := newName }
            match editLoopAux current_date username_password inp sel rest with
            | none => none
            | some r =>
              some ⟨⟨t2, nt.task_number⟩ :: r.tasks, t2 :: r.writes,
                .usernameUpdated :: r.msgs, true, r.early⟩
        | .reschedule newDate =>
          let t2 := { nt.task with due_date := newDate }
          match editLoopAux current_date username_password inp sel rest with
          | none => none
          | some r =>
            some ⟨⟨t2, nt.task_number⟩ :: r.tasks, t2 :: r.writes,
              .dueDateUpdated :: r.msgs, true, r.early⟩
        | .complete confirm =>
          if confirm.toLower = "yes" then
            let t2 := { nt.task with completed := true }
            match editLoopAux current_date username_password inp sel rest with
            | none => none
            | some r =>
              some ⟨⟨t2, nt.task_number⟩ :: r.tasks, t2 :: r.writes,
                .completedUpdated :: r.msgs, true, r.early⟩
          else
            match editLoopAux current_date username_password inp sel rest with
            | none => none
            | some r =>
              some ⟨⟨nt.task, nt.task_number⟩ :: r.tasks, r.writes,
                .noChangeMade :: r.msgs, true, r.early⟩
        | .exitChoice => some ⟨nt :: rest, [], [], true, false⟩
        | .invalidChoice => some ⟨nt :: rest, [], [.invalidOption], true, true⟩
      else
        some ⟨nt :: rest, [], [.taskLockedCannotEdit], true, false⟩
    else
      match editLoopAux current_date username_password inp sel rest with
      | none => none
      | some r => some ⟨nt :: r.tasks, r.writes, r.msgs, r.found, r.early⟩

/-- The visible outcome of edit_task_details: the returned task list, the
tasks written to storage via update_tasks_file, and the messages
printed. -/
structure EditOutcome where
  tasks : List NumberedTask
  writes : List Task
  msgs : List EditMsg
deriving DecidableEq

/-- edit_task_details of the source.  The selector is the result of the
int() conversion of the typed string, none when it raised ValueError, in
which case the invalid-task-number message is printed and the list is
returned unchanged.  Otherwise the loop runs; if it neither found a match
nor ended in the early return, the invalid-task-number message is
printed after it. -/
def edit_task_details (current_date : Date)
    (username_password : List (String × String)) (inp : EditInput)
    (my_task_list : List NumberedTask) (edit_specific_task : Option Int) :
    Option EditOutcome :=
  match edit_specific_task with
  | none => some ⟨my_task_list, [], [.invalidTaskNumber]⟩
  | some sel =>
    match editLoopAux current_date username_password inp sel my_task_list with
    | none => none
    | some r =>
      if r.early || r.found then some ⟨r.tasks, r.writes, r.msgs⟩
      else some ⟨r.tasks, r.writes, r.msgs ++ [.invalidTaskNumber]⟩

/-- A task is locked for editing when it is completed or its due date is
not after the current date (the negation of the openness test on line 468
of the source). -/
def isLockedB (current_date : Date) (t : Task) : Bool :=
  t.completed || !(dateLtB current_date t.due_date)

/-- The decimal rendering str(n) of a natural number, as a character
list. -/
def natRepr (n : Nat) : List Char :=
  if _h : n < 10 then [Nat.digitChar n]
  else natRepr (n / 10) ++ [Nat.digitChar (n % 10)]
decreasing_by exact Nat.div_lt_self (by omega) (by omega)

/-- Two-digit zero-padded rendering, the strftime directives %d and %m. -/
def pad2 (n : Nat) : List Char :=
  [Nat.digitChar (n / 10), Nat.digitChar (n % 10)]

/-- Four-digit zero-padded rendering, the strftime directive %Y on the
years the development considers. -/
def pad4 (n : Nat) : List Char :=
  [Nat.digitChar (n / 1000), Nat.digitChar (n / 100 % 10),
   Nat.digitChar (n / 10 % 10), Nat.digitChar (n % 10)]

/-- strftime with the format DD-MM-YYYY of the source. -/
def formatDate (d : Date) : List Char :=
  pad2 d.day ++ '-' :: (pad2 d.month ++ '-' :: pad4 d.year)

/-- str.split(sep) of Python for a one-character separator: the empty
string splits to one empty field, and every occurrence of the separator
opens a new field. -/
def splitOnChar (c : Char) : List Char → List (List Char)
  | [] => [[]]
  | x :: xs =>
    let r := splitOnChar c xs
    if x = c then [] :: r
    else
      match r with
      | [] => [[x]]
      | f :: rest => (x :: f) :: rest

/-- sep.join(fields) of Python for a one-character separator. -/
def joinWith (c : Char) : List (List Char) → List Char
  | [] => []
  | [f] => f
  | f :: rest => f ++ c :: joinWith c rest

/-- The numeric value of a decimal digit character; none on any other
character. -/
def charVal (c : Char) : Option Nat :=
  if c.isDigit then some (c.toNat - 48) else none

/-- The numeric value of a non-empty all-digit character list. -/
def digitsVal (cs : List Char) : Option Nat :=
  if cs.isEmpty then none
  else cs.foldlM (fun acc c => (charVal c).map (fun d => acc * 10 + d)) 0

/-- The Gregorian leap-year rule used by the calendar validation of
strptime. -/
def isLeapYear (y : Nat) : Bool :=
  (y % 4 = 0 && y % 100 ≠ 0) || y % 400 = 0

/-- The number of days of a month, as validated by strptime. -/
def daysInMonth (m y : Nat) : Nat :=
  if m = 2 then (if isLeapYear y then 29 else 28)
  else if m = 4 ∨ m = 6 ∨ m = 9 ∨ m = 11 then 30 else 31

/-- datetime.strptime with the format DD-MM-YYYY: split on the dash,
read the three decimal components, and validate that they form a real
calendar date with a year datetime supports; none models the ValueError
raised otherwise. -/
def parseDate (cs : List Char) : Option Date :=
  match splitOnChar '-' cs with
  | [ds, ms, ys] =>
    match digitsVal ds, digitsVal ms, digitsVal ys with
    | some d, some m, some y =>
      if 1 ≤ m ∧ m ≤ 12 ∧ 1 ≤ d ∧ d ≤ daysInMonth m y ∧ 1 ≤ y ∧ y ≤ 9999 then
        some ⟨d, m, y⟩
      else none
    | _, _, _ => none
  | _ => none

/-- The literal token Yes of the task file. -/
def yesChars : List Char := ['Y', 'e', 's']

/-- The literal token No of the task file. -/
def noChars : List Char := ['N', 'o']

/-- One line written by write_new_task_to_tasks_file (lines 330-340 of
the source): the 1-based position, the text fields, the two formatted
dates and the completed token, joined with semicolons. -/
def serializeTask (i : Nat) (t : Task) : List Char :=
  joinWith ';'
    [natRepr i, t.username.data, t.title.data, t.description.data,
     formatDate t.due_date, formatDate t.assigned_date,
     if t.completed then yesChars else noChars]

/-- The file content produced by write_new_task_to_tasks_file: every task
is written as its line followed by a newline, enumerating from i. -/
def writeTasksAux (i : Nat) : List Task → List Char
  | [] => []
  | t :: ts => serializeTask i t ++ '\n' :: writeTasksAux (i + 1) ts

/-- write_new_task_to_tasks_file of the source, as the content it leaves
in tasks.txt (enumeration starts at 1). -/
def write_new_task_to_tasks_file (task_list : List Task) : List Char :=
  writeTasksAux 1 task_list

/-- read_tasks_file of the source: split the content into lines, drop the
falsy (empty) ones, and split each kept line on semicolons. -/
def read_tasks_file (content : List Char) : List (List (List Char)) :=
  ((splitOnChar '\n' content).filter (fun t => !t.isEmpty)).map
    (splitOnChar ';')

/-- The loop of create_task_list carrying the enumerate counter: each row
is read at the field indices 1 to 6 (the leading stored index is
ignored), the two dates are parsed, completed compares the seventh field
with the token Yes, and the number field is the counter.  A missing field
is an IndexError and an unparsable date a ValueError, both modelled as
none. -/
def createTaskAux (i : Nat) : List (List (List Char)) → Option (List Task)
  | [] => some []
  | comps :: rest =>
    match comps with
    | _stored :: uname :: titl :: descr :: dueS :: asgS :: compS :: _extra =>
      match parseDate dueS, parseDate asgS with
      | some due, some asg =>
        match createTaskAux (i + 1) rest with
        | some ts =>
          some (⟨i, String.mk uname, String.mk titl, String.mk descr, due, asg,
            decide (compS = yesChars)⟩ :: ts)
        | none => none
      | _, _ => none
    | _ => none

/-- create_task_list of the source (enumeration starts at 1). -/
def create_task_list (task_data : List (List (List Char))) :
    Option (List Task) :=
  createTaskAux 1 task_data

/-- Renumbers a task list sequentially starting at i, keeping every other
field. -/
def renumberFrom (i : Nat) : List Task → List Task
  | [] => []
  | t :: ts => { t with number := i } :: renumberFrom (i + 1) ts

/-- A character list free of the two file delimiters of the task store. -/
@[reducible] def delimFree (cs : List Char) : Prop := ';' ∉ cs ∧ '\n' ∉ cs

/-- A date the serialization round-trips: a real calendar date with a
four-digit year. -/
@[reducible] def validDate (d : Date) : Prop :=
  1 ≤ d.day ∧ d.day ≤ daysInMonth d.month d.year ∧ 1 ≤ d.month ∧
    d.month ≤ 12 ∧ 1000 ≤ d.year ∧ d.year ≤ 9999

/-- A task the flat-file serialization can faithfully carry: its text
fields contain neither delimiter and its dates are valid. -/
@[reducible] def wfTask (t : Task) : Prop :=
  delimFree t.username.data ∧ delimFree t.title.data ∧
    delimFree t.description.data ∧ validDate t.due_date ∧
    validDate t.assigned_date

/-- A sample date in the past of the sample session. -/
def dEarly : Date := ⟨1, 1, 2024⟩

/-- A sample date in the future of the sample session. -/
def dLate : Date := ⟨31, 12, 2030⟩

/-- A sample task assigned to alice. -/
def tAlice : Task := ⟨1, "alice", "fix", "desc", dLate, dEarly, false⟩

/-- A sample task assigned to bob. -/
def tBob : Task := ⟨2, "bob", "ship", "desc", dLate, dEarly, false⟩

/-- A sample completed (hence locked) task assigned to alice. -/
def tDone : Task := ⟨1, "alice", "old", "desc", dLate, dEarly, true⟩

/-- A sample credential mapping with two users. -/
def creds2 : List (String × String) := [("admin", "password"), ("alice", "pw")]

/-- The sample alice task after the reassignment branch stores the typed
username ghost. -/
def tGhost : Task := ⟨1, "ghost", "fix", "desc", dLate, dEarly, false⟩

/-- The global figures of the sample statistics run over one completed
task. -/
def gEx : GlobalFigures := ⟨1, 1, 0, 0, some 0, some 0⟩

/-- The admin row of the sample statistics run (no task assigned). -/
def rowAdminEx : UserRow := ⟨"admin", 0, 0, 0, 0, some 0, some 0, some 0, some 0⟩

/-- The alice row of the sample statistics run (one completed task). -/
def rowAliceEx : UserRow :=
  ⟨"alice", 1, 1, 0, 0, some 100, some 100, some 0, some 0⟩

/-- The enumeration counter of view_my_tasks_option advances on every
element of the full list, so the view equals the globally numbered list
filtered afterwards. -/
theorem viewMyAux_eq_filter (u : String) (ts : List Task) (i : Nat) :
    viewMyAux u i ts =
      (numberFromAux i ts).filter (fun nt => nt.task.username = u) := by
  induction ts generalizing i with
  | nil => rfl
  | cons t ts ih =>
    by_cases h : t.username = u <;>
      simp [viewMyAux, numberFromAux, List.filter_cons, h, ih]

/-- Claim C1, as stated, is false on the code: for the two-task list in
which bob owns only the second task, the view for bob annotates his task
with task_number 2 (its position in the full list), while the spec
formulation annotates it with 1 (its position in the filtered
sequence). -/
theorem c1_counterexample :
    view_my_tasks_option "bob" [tAlice, tBob] ≠
      tasksForSpec "bob" [tAlice, tBob] := by
  decide

/-- Claim C1 amended: the filtered view for a user annotates each of the
returned tasks with a task_number equal to its 1-based position in the
full task list (the enumeration index of the source loop), not its
position within the filtered sequence. -/
theorem c1_task_number_is_global_position (u : String) (ts : List Task) :
    view_my_tasks_option u ts =
      (numberFromAux 1 ts).filter (fun nt => nt.task.username = u) :=
  viewMyAux_eq_filter u ts 1

/-- Claim C2 names a code bug: the reassignment branch calls the
validation loop but discards its return value and stores the first typed
username.  With the first input ghost (unregistered) and the re-prompt
answered alice (registered), the validation loop succeeds, yet the task
is updated and persisted with username ghost, which is not a key of the
credential mapping. -/
theorem c2_reassign_stores_unvalidated_username :
    edit_task_details dEarly creds2 (.reassign "ghost" ["alice"])
        [⟨tAlice, 1⟩] (some 1) =
      some ⟨[⟨tGhost, 1⟩], [tGhost], [.usernameUpdated]⟩ ∧
      tGhost.username ∉ creds2.map Prod.fst := by
  decide

/-- A run of the edit loop in which every task carrying the selected
task_number is locked leaves the list untouched, performs no write, and
prints exactly the eligibility message. -/
theorem editLoopAux_locked (current_date : Date)
    (username_password : List (String × String)) (inp : EditInput) (sel : Int)
    (list : List NumberedTask)
    (hex : ∃ nt ∈ list, (nt.task_number : Int) = sel)
    (hlock : ∀ nt ∈ list, (nt.task_number : Int) = sel →
      isLockedB current_date nt.task = true) :
    editLoopAux current_date username_password inp sel list =
      some ⟨list, [], [.taskLockedCannotEdit], true, false⟩ := by
  induction list with
  | nil => simp at hex
  | cons nt rest ih =>
    by_cases hm : (nt.task_number : Int) = sel
    · have hl := hlock nt (by simp) hm
      have hopen : ((!nt.task.completed) &&
          dateLtB current_date nt.task.due_date) = false := by
        cases hc : nt.task.completed <;>
          cases hd : dateLtB current_date nt.task.due_date <;>
            simp_all [isLockedB]
      simp [editLoopAux, hm, hopen]
    · have hex2 : ∃ nt2 ∈ rest, (nt2.task_number : Int) = sel := by
        rcases hex with ⟨nt2, hmem, hsel⟩
        rcases List.mem_cons.mp hmem with h | h
        · exact absurd (h ▸ hsel) hm
        · exact ⟨nt2, h, hsel⟩
      have hlock2 : ∀ nt2 ∈ rest, (nt2.task_number : Int) = sel →
          isLockedB current_date nt2.task = true := by
        intro nt2 hmem hsel
        exact hlock nt2 (List.mem_cons_of_mem _ hmem) hsel
      simp [editLoopAux, hm, ih hex2 hlock2]

/-- Claim C3: a locked task (completed, or due on or before the current
date) rejects every edit operation with the eligibility message, the
task list is returned unchanged and nothing is written to storage,
whichever input the operator chose. -/
theorem c3_locked_task_rejects_all_mutations (current_date : Date)
    (username_password : List (String × String)) (inp : EditInput) (sel : Int)
    (list : List NumberedTask)
    (hex : ∃ nt ∈ list, (nt.task_number : Int) = sel)
    (hlock : ∀ nt ∈ list, (nt.task_number : Int) = sel →
      isLockedB current_date nt.task = true) :
    edit_task_details current_date username_password inp list (some sel) =
      some ⟨list, [], [.taskLockedCannotEdit]⟩ := by
  rw [edit_task_details,
    editLoopAux_locked current_date username_password inp sel list hex hlock]
  simp

/-- Witness for claim C3 at a concrete locked task: the completed sample
task, selected by its number, rejects the completion input. -/
theorem c3_locked_task_rejects_all_mutations_witness :
    (∃ nt ∈ [(⟨tDone, 1⟩ : NumberedTask)], (nt.task_number : Int) = 1) ∧
    (∀ nt ∈ [(⟨tDone, 1⟩ : NumberedTask)], (nt.task_number : Int) = 1 →
      isLockedB dEarly nt.task = true) ∧
    edit_task_details dEarly creds2 (.complete "yes") [⟨tDone, 1⟩] (some 1) =
      some ⟨[⟨tDone, 1⟩], [], [.taskLockedCannotEdit]⟩ :=
  ⟨by decide, by decide,
    c3_locked_task_rejects_all_mutations dEarly creds2 (.complete "yes") 1
      [⟨tDone, 1⟩] (by decide) (by decide)⟩

/-- The loop bodies of the two statistics passes agree step by step. -/
theorem stepStatsGR_eq_stepStatsDS (current_date : Date) (acc : StatsAcc)
    (t : Task) : stepStatsGR current_date acc t = stepStatsDS current_date acc t := by
  rfl

/-- The aggregation loops of the two statistics passes agree. -/
theorem statsLoopGR_eq_statsLoopDS (current_date : Date) (acc : StatsAcc)
    (ts : List Task) :
    statsLoopGR current_date acc ts = statsLoopDS current_date acc ts := by
  induction ts generalizing acc with
  | nil => rfl
  | cons t ts ih =>
    rw [statsLoopGR, statsLoopDS, stepStatsGR_eq_stepStatsDS]
    cases stepStatsDS current_date acc t with
    | none => rfl
    | some acc2 => exact ih acc2

/-- The per-user blocks of the two statistics passes agree. -/
theorem mkUserRowGR_eq_mkUserRowDS (total_tasks : Nat)
    (entry : String × UserStats) :
    mkUserRowGR total_tasks entry = mkUserRowDS total_tasks entry := by
  rfl

/-- Claim C4: the statistics computation of generate_reports_option and
the one of display_stats_option produce identical figures on every
credential mapping, task list and current date. -/
theorem c4_display_and_report_stats_agree (current_date : Date)
    (username_password : List (String × String)) (tasks : List Task) :
    generate_reports_option current_date username_password tasks =
      display_stats_option current_date username_password tasks := by
  rw [generate_reports_option, display_stats_option, statsLoopGR_eq_statsLoopDS]
  cases statsLoopDS current_date ⟨0, 0, 0, initUserStats username_password⟩ tasks with
  | none => rfl
  | some acc =>
    simp only
    rw [funext (mkUserRowGR_eq_mkUserRowDS tasks.length)]

/-- The indexing assignment succeeds exactly when the username has an
entry in the table. -/
theorem updateUser_isSome_iff (m : List (String × UserStats)) (u : String)
    (f : UserStats → UserStats) :
    (updateUser m u f).isSome = true ↔ u ∈ m.map Prod.fst := by
  induction m with
  | nil => simp [updateUser]
  | cons p rest ih =>
    obtain ⟨k, v⟩ := p
    by_cases hk : k = u
    · subst hk
      simp [updateUser]
    · have hne : ¬(u = k) := fun hh => hk hh.symm
      simp [updateUser, hk, ih, hne]

/-- The indexing assignment keeps the key sequence of the table. -/
theorem updateUser_keys (m : List (String × UserStats)) (u : String)
    (f : UserStats → UserStats) (m2 : List (String × UserStats))
    (h : updateUser m u f = some m2) : m2.map Prod.fst = m.map Prod.fst := by
  induction m generalizing m2 with
  | nil => simp [updateUser] at h
  | cons p rest ih =>
    obtain ⟨k, v⟩ := p
    by_cases hk : k = u
    · subst hk
      simp [updateUser] at h
      subst h
      simp
    · simp only [updateUser, if_neg hk] at h
      cases hr : updateUser rest u f with
      | none => rw [hr] at h; simp at h
      | some m3 =>
        rw [hr] at h
        simp only [Option.map_some', Option.some.injEq] at h
        subst h
        simp [ih m3 hr]

/-- The indexing assignment succeeds on a username present in the
table. -/
theorem updateUser_some_of_mem (m : List (String × UserStats)) (u : String)
    (f : UserStats → UserStats) (h : u ∈ m.map Prod.fst) :
    ∃ m2, updateUser m u f = some m2 := by
  have hs := (updateUser_isSome_iff m u f).mpr h
  cases hr : updateUser m u f with
  | none => rw [hr] at hs; simp at hs
  | some m2 => exact ⟨m2, rfl⟩

/-- One aggregation step fails exactly on a task whose username has no
entry in the per-user table. -/
theorem stepStatsGR_none_of_not_mem (current_date : Date) (acc : StatsAcc)
    (t : Task) (h : t.username ∉ acc.userStats.map Prod.fst) :
    stepStatsGR current_date acc t = none := by
  have h1 : ∀ f, updateUser acc.userStats t.username f = none := by
    intro f
    cases hr : updateUser acc.userStats t.username f with
    | none => rfl
    | some m =>
      exact absurd
        ((updateUser_isSome_iff acc.userStats t.username f).mp
          (by rw [hr]; rfl)) h
  unfold stepStatsGR
  simp only [h1]
  cases t.completed <;> rfl

/-- One successful aggregation step classifies the task exactly once,
counts it overdue only when it counts it uncompleted, and keeps the key
sequence of the per-user table. -/
theorem stepStatsGR_some_inv (current_date : Date) (acc : StatsAcc) (t : Task)
    (a2 : StatsAcc) (h : stepStatsGR current_date acc t = some a2) :
    a2.completedT + a2.uncompletedT = acc.completedT + acc.uncompletedT + 1 ∧
    a2.overdueT + acc.uncompletedT ≤ a2.uncompletedT + acc.overdueT ∧
    a2.userStats.map Prod.fst = acc.userStats.map Prod.fst := by
  unfold stepStatsGR at h
  split at h
  · exact absurd h (by simp)
  · rename_i acc3 heq
    split at h
    · exact absurd h (by simp)
    · rename_i m3 hu3
      have hk3 := updateUser_keys _ _ _ _ hu3
      simp only [Option.some.injEq] at h
      subst h
      split at heq
      · split at heq
        · exact absurd heq (by simp)
        · rename_i m1 hu1
          have hk1 := updateUser_keys _ _ _ _ hu1
          simp only [Option.some.injEq] at heq
          subst heq
          simp only at hk3 ⊢
          refine ⟨by omega, by omega, by rw [hk3, hk1]⟩
      · split at heq
        · exact absurd heq (by simp)
        · rename_i m1 hu1
          have hk1 := updateUser_keys _ _ _ _ hu1
          split at heq
          · split at heq
            · exact absurd heq (by simp)
            · rename_i m2 hu2
              have hk2 := updateUser_keys _ _ _ _ hu2
              simp only [Option.some.injEq] at heq
              subst heq
              simp only at hk3 ⊢
              refine ⟨by omega, by omega, by rw [hk3, hk2, hk1]⟩
          · simp only [Option.some.injEq] at heq
            subst heq
            simp only at hk3 ⊢
            refine ⟨by omega, by omega, by rw [hk3, hk1]⟩

/-- One aggregation step succeeds on a task whose username has an entry
in the per-user table. -/
theorem stepStatsGR_isSome_of_mem (current_date : Date) (acc : StatsAcc)
    (t : Task) (h : t.username ∈ acc.userStats.map Prod.fst) :
    (stepStatsGR current_date acc t).isSome = true := by
  cases hc : t.completed with
  | true =>
    obtain ⟨m1, hu1⟩ := updateUser_some_of_mem acc.userStats t.username
      (fun s => { s with completedTasks := s.completedTasks + 1 }) h
    have h1 : t.username ∈ m1.map Prod.fst := by
      rw [updateUser_keys _ _ _ _ hu1]; exact h
    obtain ⟨m2, hu2⟩ := updateUser_some_of_mem m1 t.username
      (fun s => { s with assigned := s.assigned + 1 }) h1
    simp [stepStatsGR, hc, hu1, hu2]
  | false =>
    obtain ⟨m1, hu1⟩ := updateUser_some_of_mem acc.userStats t.username
      (fun s => { s with uncompletedTasks := s.uncompletedTasks + 1 }) h
    have h1 : t.username ∈ m1.map Prod.fst := by
      rw [updateUser_keys _ _ _ _ hu1]; exact h
    cases hd : dateLeB t.due_date current_date with
    | true =>
      obtain ⟨m2, hu2⟩ := updateUser_some_of_mem m1 t.username
        (fun s => { s with overdueTasks := s.overdueTasks + 1 }) h1
      have h2 : t.username ∈ m2.map Prod.fst := by
        rw [updateUser_keys _ _ _ _ hu2]; exact h1
      obtain ⟨m3, hu3⟩ := updateUser_some_of_mem m2 t.username
        (fun s => { s with assigned := s.assigned + 1 }) h2
      simp [stepStatsGR, hc, hd, hu1, hu2, hu3]
    | false =>
      obtain ⟨m3, hu3⟩ := updateUser_some_of_mem m1 t.username
        (fun s => { s with assigned := s.assigned + 1 }) h1
      simp [stepStatsGR, hc, hd, hu1, hu3]

/-- The aggregation loop establishes the global count invariants relative
to its starting state and keeps the key sequence of the per-user
table. -/
theorem statsLoopGR_some_inv (current_date : Date) (ts : List Task)
    (acc st : StatsAcc) (h : statsLoopGR current_date acc ts = some st) :
    st.completedT + st.uncompletedT =
      acc.completedT + acc.uncompletedT + ts.length ∧
    st.overdueT + acc.uncompletedT ≤ st.uncompletedT + acc.overdueT ∧
    st.userStats.map Prod.fst = acc.userStats.map Prod.fst := by
  induction ts generalizing acc with
  | nil =>
    rw [statsLoopGR] at h
    simp only [Option.some.injEq] at h
    subst h
    exact ⟨rfl, by omega, rfl⟩
  | cons t ts ih =>
    rw [statsLoopGR] at h
    cases hs : stepStatsGR current_date acc t with
    | none => rw [hs] at h; simp at h
    | some a2 =>
      rw [hs] at h
      obtain ⟨hc1, hc2, hc3⟩ := stepStatsGR_some_inv current_date acc t a2 hs
      obtain ⟨hl1, hl2, hl3⟩ := ih a2 h
      refine ⟨by simp only [List.length_cons]; omega, by omega, by
        rw [hl3, hc3]⟩

/-- The aggregation loop succeeds exactly when every task username of the
remaining tasks has an entry in the per-user table. -/
theorem statsLoopGR_isSome_iff (current_date : Date) (ts : List Task)
    (acc : StatsAcc) :
    (statsLoopGR current_date acc ts).isSome = true ↔
      ∀ t ∈ ts, t.username ∈ acc.userStats.map Prod.fst := by
  induction ts generalizing acc with
  | nil => simp [statsLoopGR]
  | cons t ts ih =>
    rw [statsLoopGR]
    by_cases hm : t.username ∈ acc.userStats.map Prod.fst
    · have hsome := stepStatsGR_isSome_of_mem current_date acc t hm
      cases hs : stepStatsGR current_date acc t with
      | none => rw [hs] at hsome; simp at hsome
      | some a2 =>
        have hkeys := (stepStatsGR_some_inv current_date acc t a2 hs).2.2
        simp only [List.mem_cons]
        constructor
        · intro hh t2 ht2
          rcases ht2 with h | h
          · exact h ▸ hm
          · have := (ih a2).mp hh t2 h
            rw [hkeys] at this
            exact this
        · intro hh
          refine (ih a2).mpr ?_
          intro t2 ht2
          rw [hkeys]
          exact hh t2 (Or.inr ht2)
    · rw [stepStatsGR_none_of_not_mem current_date acc t hm]
      simp only [Option.isSome_none, Bool.false_eq_true, false_iff]
      intro hh
      exact hm (hh t (by simp))

/-- The seeded per-user table has exactly the usernames of the credential
mapping as keys, in order. -/
theorem initUserStats_keys (username_password : List (String × String)) :
    (initUserStats username_password).map Prod.fst =
      username_password.map Prod.fst := by
  simp [initUserStats]

/-- Claim C5: the global aggregates satisfy completed plus uncompleted
equals total, overdue at most uncompleted, and total is the number of
tasks. -/
theorem c5_global_count_invariants (current_date : Date)
    (username_password : List (String × String)) (tasks : List Task)
    (g : GlobalFigures) (rows : List UserRow)
    (h : generate_reports_option current_date username_password tasks =
      some (g, rows)) :
    g.completedT + g.uncompletedT = g.total ∧ g.overdueT ≤ g.uncompletedT ∧
      g.total = tasks.length := by
  unfold generate_reports_option at h
  cases hs : statsLoopGR current_date ⟨0, 0, 0, initUserStats username_password⟩
      tasks with
  | none => rw [hs] at h; simp at h
  | some acc =>
    rw [hs] at h
    obtain ⟨h1, h2, _⟩ := statsLoopGR_some_inv current_date tasks _ acc hs
    have e1 : acc.completedT + acc.uncompletedT = tasks.length := by
      simpa using h1
    have e2 : acc.overdueT ≤ acc.uncompletedT := by simpa using h2
    simp only [Option.some.injEq, Prod.mk.injEq] at h
    obtain ⟨hg, _⟩ := h
    subst hg
    exact ⟨e1, e2, rfl⟩

/-- The sample statistics run evaluated: two registered users, one
completed task assigned to alice. -/
theorem sample_stats_run :
    generate_reports_option dEarly creds2 [tDone] =
      some (gEx, [rowAdminEx, rowAliceEx]) := by
  norm_num [generate_reports_option, statsLoopGR, stepStatsGR, updateUser,
    initUserStats, creds2, tDone, dEarly, dLate, dateLeB, dateLtB, pydiv,
    mkUserRowGR, gEx, rowAdminEx, rowAliceEx,
    show ("admin" : String) ≠ "alice" from by decide]

/-- Witness for claim C5: the sample run satisfies the count
invariants. -/
theorem c5_global_count_invariants_witness :
    generate_reports_option dEarly creds2 [tDone] =
      some (gEx, [rowAdminEx, rowAliceEx]) ∧
    gEx.completedT + gEx.uncompletedT = gEx.total ∧
    gEx.overdueT ≤ gEx.uncompletedT ∧ gEx.total = [tDone].length :=
  ⟨sample_stats_run,
    c5_global_count_invariants dEarly creds2 [tDone] gEx [rowAdminEx, rowAliceEx]
      sample_stats_run⟩

/-- A guarded percentage never faults: either the guard fails and the
literal 0 is produced, or the divisor is positive and the division
succeeds. -/
theorem guarded_pct_isSome (n d : Nat) :
    (if 0 < d then (pydiv (n : ℚ) (d : ℚ)).map (fun q => q * 100)
      else some 0).isSome = true := by
  by_cases hd : 0 < d
  · have hne : ((d : Nat) : ℚ) ≠ 0 := Nat.cast_ne_zero.mpr (by omega)
    simp [hd, pydiv, hne]
  · simp [hd]

/-- A guarded percentage with numerator 0 evaluates to 0. -/
theorem guarded_pct_zero_num (n d : Nat) (hn : n = 0) :
    (if 0 < d then (pydiv (n : ℚ) (d : ℚ)).map (fun q => q * 100)
      else some 0) = some 0 := by
  subst hn
  by_cases hd : 0 < d
  · have hne : ((d : Nat) : ℚ) ≠ 0 := Nat.cast_ne_zero.mpr (by omega)
    simp [hd, pydiv, hne]
  · simp [hd]

/-- A guarded percentage with divisor 0 evaluates to 0 through the
guard. -/
theorem guarded_pct_zero_den (n d : Nat) (hd : d = 0) :
    (if 0 < d then (pydiv (n : ℚ) (d : ℚ)).map (fun q => q * 100)
      else some 0) = some 0 := by
  subst hd
  simp

/-- A guarded percentage with positive divisor is the exact quotient
scaled by 100. -/
theorem guarded_pct_pos (n d : Nat) (hd : 0 < d) :
    (if 0 < d then (pydiv (n : ℚ) (d : ℚ)).map (fun q => q * 100)
      else some 0) = some ((n : ℚ) / (d : ℚ) * 100) := by
  have hne : ((d : Nat) : ℚ) ≠ 0 := Nat.cast_ne_zero.mpr (by omega)
  simp [hd, pydiv, hne]

/-- Claim C6: a user with no assigned task gets every per-user percentage
equal to 0, an empty task set gets both global percentages equal to 0,
and no percentage computation of the statistics pass raises a division
fault. -/
theorem c6_zero_denominator_percentages (current_date : Date)
    (username_password : List (String × String)) (tasks : List Task)
    (g : GlobalFigures) (rows : List UserRow)
    (h : generate_reports_option current_date username_password tasks =
      some (g, rows)) :
    (∀ r ∈ rows, r.assigned = 0 →
      r.pctAssigned = some 0 ∧ r.pctCompleted = some 0 ∧
      r.pctUncompleted = some 0 ∧ r.pctOverdue = some 0) ∧
    (g.total = 0 → g.pctUncompleted = some 0 ∧ g.pctOverdue = some 0) ∧
    (g.pctUncompleted.isSome = true ∧ g.pctOverdue.isSome = true) ∧
    (∀ r ∈ rows, r.pctAssigned.isSome = true ∧ r.pctCompleted.isSome = true ∧
      r.pctUncompleted.isSome = true ∧ r.pctOverdue.isSome = true) := by
  unfold generate_reports_option at h
  cases hs : statsLoopGR current_date ⟨0, 0, 0, initUserStats username_password⟩
      tasks with
  | none => rw [hs] at h; simp at h
  | some acc =>
    rw [hs] at h
    simp only [Option.some.injEq, Prod.mk.injEq] at h
    obtain ⟨hg, hrows⟩ := h
    subst hg
    subst hrows
    refine ⟨?_, ?_, ?_, ?_⟩
    · intro r hr ha
      obtain ⟨e, _he, rfl⟩ := List.mem_map.mp hr
      have h0 : e.2.assigned = 0 := ha
      exact ⟨guarded_pct_zero_num _ _ h0, guarded_pct_zero_den _ _ h0,
        guarded_pct_zero_den _ _ h0, guarded_pct_zero_den _ _ h0⟩
    · intro h0
      have hl : tasks.length = 0 := h0
      exact ⟨guarded_pct_zero_den _ _ hl, guarded_pct_zero_den _ _ hl⟩
    · exact ⟨guarded_pct_isSome _ _, guarded_pct_isSome _ _⟩
    · intro r hr
      obtain ⟨e, _he, rfl⟩ := List.mem_map.mp hr
      exact ⟨guarded_pct_isSome _ _, guarded_pct_isSome _ _,
        guarded_pct_isSome _ _, guarded_pct_isSome _ _⟩

/-- Witness for claim C6: on the sample run, the admin row has no
assigned task and all its percentages are 0, and nothing faults. -/
theorem c6_zero_denominator_percentages_witness :
    generate_reports_option dEarly creds2 [tDone] =
      some (gEx, [rowAdminEx, rowAliceEx]) ∧
    (∀ r ∈ [rowAdminEx, rowAliceEx], r.assigned = 0 →
      r.pctAssigned = some 0 ∧ r.pctCompleted = some 0 ∧
      r.pctUncompleted = some 0 ∧ r.pctOverdue = some 0) ∧
    (∀ r ∈ [rowAdminEx, rowAliceEx], r.pctAssigned.isSome = true ∧
      r.pctCompleted.isSome = true ∧ r.pctUncompleted.isSome = true ∧
      r.pctOverdue.isSome = true) :=
  have hc := c6_zero_denominator_percentages dEarly creds2 [tDone] gEx
    [rowAdminEx, rowAliceEx] sample_stats_run
  ⟨sample_stats_run, hc.1, hc.2.2.2⟩

/-- Claim C8: in every per-user row, the assigned percentage divides the
user assigned count by the global task total, while the completed,
uncompleted and overdue percentages divide by that same user assigned
count. -/
theorem c8_percentage_divisor_asymmetry (current_date : Date)
    (username_password : List (String × String)) (tasks : List Task)
    (g : GlobalFigures) (rows : List UserRow)
    (h : generate_reports_option current_date username_password tasks =
      some (g, rows)) (r : UserRow) (hr : r ∈ rows) :
    (0 < g.total →
      r.pctAssigned = some ((r.assigned : ℚ) / (g.total : ℚ) * 100)) ∧
    (0 < r.assigned →
      r.pctCompleted =
        some ((r.completedTasks : ℚ) / (r.assigned : ℚ) * 100) ∧
      r.pctUncompleted =
        some ((r.uncompletedTasks : ℚ) / (r.assigned : ℚ) * 100) ∧
      r.pctOverdue =
        some ((r.overdueTasks : ℚ) / (r.assigned : ℚ) * 100)) := by
  unfold generate_reports_option at h
  cases hs : statsLoopGR current_date ⟨0, 0, 0, initUserStats username_password⟩
      tasks with
  | none => rw [hs] at h; simp at h
  | some acc =>
    rw [hs] at h
    simp only [Option.some.injEq, Prod.mk.injEq] at h
    obtain ⟨hg, hrows⟩ := h
    subst hg
    subst hrows
    obtain ⟨e, _he, rfl⟩ := List.mem_map.mp hr
    constructor
    · intro ht
      have ht2 : 0 < tasks.length := ht
      exact guarded_pct_pos _ _ ht2
    · intro ha
      have ha2 : 0 < e.2.assigned := ha
      exact ⟨guarded_pct_pos _ _ ha2, guarded_pct_pos _ _ ha2,
        guarded_pct_pos _ _ ha2⟩

/-- Witness for claim C8 at the alice row of the sample run: one task of
one, all divisors positive. -/
theorem c8_percentage_divisor_asymmetry_witness :
    generate_reports_option dEarly creds2 [tDone] =
      some (gEx, [rowAdminEx, rowAliceEx]) ∧
    rowAliceEx ∈ [rowAdminEx, rowAliceEx] ∧
    (0 < gEx.total →
      rowAliceEx.pctAssigned =
        some ((rowAliceEx.assigned : ℚ) / (gEx.total : ℚ) * 100)) ∧
    (0 < rowAliceEx.assigned →
      rowAliceEx.pctCompleted =
        some ((rowAliceEx.completedTasks : ℚ) / (rowAliceEx.assigned : ℚ) * 100) ∧
      rowAliceEx.pctUncompleted =
        some ((rowAliceEx.uncompletedTasks : ℚ) /
          (rowAliceEx.assigned : ℚ) * 100) ∧
      rowAliceEx.pctOverdue =
        some ((rowAliceEx.overdueTasks : ℚ) / (rowAliceEx.assigned : ℚ) * 100)) :=
  have hc := c8_percentage_divisor_asymmetry dEarly creds2 [tDone] gEx
    [rowAdminEx, rowAliceEx] sample_stats_run rowAliceEx (by simp)
  ⟨sample_stats_run, by simp, hc.1, hc.2⟩

/-- The report computation succeeds exactly when its aggregation loop
does. -/
theorem generate_reports_isSome_eq (current_date : Date)
    (username_password : List (String × String)) (tasks : List Task) :
    (generate_reports_option current_date username_password tasks).isSome =
      (statsLoopGR current_date ⟨0, 0, 0, initUserStats username_password⟩
        tasks).isSome := by
  unfold generate_reports_option
  cases hs : statsLoopGR current_date ⟨0, 0, 0, initUserStats username_password⟩
      tasks <;> simp

/-- Claim C10: the statistics pass is total exactly on inputs in which
every task username is a key of the credential mapping; one task with an
unknown username makes the whole computation abort (KeyError) rather than
skip or default that task. -/
theorem c10_stats_total_iff_usernames_known (current_date : Date)
    (username_password : List (String × String)) (tasks : List Task) :
    (generate_reports_option current_date username_password tasks).isSome =
      true ↔
      ∀ t ∈ tasks, t.username ∈ username_password.map Prod.fst := by
  rw [generate_reports_isSome_eq, statsLoopGR_isSome_iff]
  simp [initUserStats_keys]

/-- Witness for claim C10: the sample run succeeds, and a run over a task
of the unregistered user ghost aborts. -/
theorem c10_stats_total_iff_usernames_known_witness :
    (generate_reports_option dEarly creds2 [tDone]).isSome = true ∧
    (generate_reports_option dEarly creds2 [tGhost]).isSome = false :=
  ⟨(c10_stats_total_iff_usernames_known dEarly creds2 [tDone]).mpr (by decide),
    by
      have hiff := c10_stats_total_iff_usernames_known dEarly creds2 [tGhost]
      have hno : ¬ ∀ t ∈ [tGhost], t.username ∈ creds2.map Prod.fst := by
        decide
      cases hval : (generate_reports_option dEarly creds2 [tGhost]).isSome with
      | false => rfl
      | true => exact absurd (hiff.mp hval) hno⟩

/-- Splitting never yields an empty list of fields. -/
theorem splitOnChar_ne_nil (c : Char) (xs : List Char) :
    splitOnChar c xs ≠ [] := by
  induction xs with
  | nil => simp [splitOnChar]
  | cons x xs ih =>
    rw [splitOnChar]
    by_cases hx : x = c
    · simp [hx]
    · simp only [if_neg hx]
      cases hr : splitOnChar c xs with
      | nil => simp
      | cons f rest => simp

/-- A list without the separator splits into the single field it is. -/
theorem splitOnChar_not_mem (c : Char) (xs : List Char) (h : c ∉ xs) :
    splitOnChar c xs = [xs] := by
  induction xs with
  | nil => rfl
  | cons x xs ih =>
    have hx : ¬(x = c) := fun hh => h (hh ▸ List.mem_cons_self x xs)
    have hxs : c ∉ xs := fun hh => h (List.mem_cons_of_mem x hh)
    rw [splitOnChar]
    simp only [if_neg hx, ih hxs]

/-- Splitting peels one separator-free field followed by the
separator. -/
theorem splitOnChar_append (c : Char) (xs rest : List Char) (h : c ∉ xs) :
    splitOnChar c (xs ++ c :: rest) = xs :: splitOnChar c rest := by
  induction xs with
  | nil =>
    simp only [List.nil_append]
    rw [splitOnChar]
    simp
  | cons x xs ih =>
    have hx : ¬(x = c) := fun hh => h (hh ▸ List.mem_cons_self x xs)
    have hxs : c ∉ xs := fun hh => h (List.mem_cons_of_mem x hh)
    simp only [List.cons_append]
    rw [splitOnChar]
    simp only [if_neg hx, ih hxs]

/-- Splitting undoes joining when no field contains the separator. -/
theorem splitOnChar_joinWith (c : Char) (fs : List (List Char))
    (hne : fs ≠ []) (h : ∀ f ∈ fs, c ∉ f) :
    splitOnChar c (joinWith c fs) = fs := by
  induction fs with
  | nil => exact absurd rfl hne
  | cons f fs ih =>
    cases fs with
    | nil =>
      rw [joinWith]
      exact splitOnChar_not_mem c f (h f (by simp))
    | cons f2 fs2 =>
      show splitOnChar c (f ++ c :: joinWith c (f2 :: fs2)) = _
      rw [splitOnChar_append c f _ (h f (by simp))]
      rw [ih (by simp) (fun g hg => h g (List.mem_cons_of_mem f hg))]

/-- Every character of a join is the separator or comes from a field. -/
theorem mem_joinWith (c : Char) (fs : List (List Char)) (x : Char)
    (h : x ∈ joinWith c fs) : x = c ∨ ∃ f ∈ fs, x ∈ f := by
  induction fs with
  | nil => simp [joinWith] at h
  | cons f fs ih =>
    cases fs with
    | nil =>
      rw [joinWith] at h
      exact Or.inr ⟨f, by simp, h⟩
    | cons f2 fs2 =>
      have h2 : x ∈ f ++ c :: joinWith c (f2 :: fs2) := h
      rcases List.mem_append.mp h2 with hf | hr
      · exact Or.inr ⟨f, by simp, hf⟩
      · rcases List.mem_cons.mp hr with hc | hj
        · exact Or.inl hc
        · rcases ih hj with hc | ⟨g, hg, hx⟩
          · exact Or.inl hc
          · exact Or.inr ⟨g, List.mem_cons_of_mem f hg, hx⟩

/-- Digit characters carry their value. -/
theorem charVal_digitChar (d : Nat) (h : d < 10) :
    charVal (Nat.digitChar d) = some d := by
  interval_cases d <;> decide

/-- Digit characters are digits. -/
theorem digitChar_isDigit (d : Nat) (h : d < 10) :
    (Nat.digitChar d).isDigit = true := by
  interval_cases d <;> decide

/-- A digit character is none of the three delimiters of the task
file. -/
theorem isDigit_ne_delims (c : Char) (h : c.isDigit = true) :
    c ≠ '-' ∧ c ≠ ';' ∧ c ≠ '\n' := by
  refine ⟨?_, ?_, ?_⟩ <;> rintro rfl <;> exact absurd h (by decide)

/-- No month has more than 31 days. -/
theorem daysInMonth_le_31 (m y : Nat) : daysInMonth m y ≤ 31 := by
  rw [daysInMonth]
  split
  · split <;> omega
  · split <;> omega

/-- Reading back a two-digit zero-padded rendering. -/
theorem digitsVal_pad2 (n : Nat) (h : n < 100) :
    digitsVal (pad2 n) = some n := by
  have h1 := charVal_digitChar (n / 10) (by omega)
  have h2 := charVal_digitChar (n % 10) (by omega)
  simp [digitsVal, pad2, List.foldlM, h1, h2]
  omega

/-- Reading back a four-digit zero-padded rendering. -/
theorem digitsVal_pad4 (n : Nat) (h : n < 10000) :
    digitsVal (pad4 n) = some n := by
  have h1 := charVal_digitChar (n / 1000) (by omega)
  have h2 := charVal_digitChar (n / 100 % 10) (by omega)
  have h3 := charVal_digitChar (n / 10 % 10) (by omega)
  have h4 := charVal_digitChar (n % 10) (by omega)
  simp [digitsVal, pad4, List.foldlM, h1, h2, h3, h4]
  omega

/-- Two-digit renderings consist of digits. -/
theorem pad2_digits (n : Nat) (h : n < 100) :
    ∀ x ∈ pad2 n, x.isDigit = true := by
  intro x hx
  simp [pad2] at hx
  rcases hx with hx | hx <;> subst hx
  · exact digitChar_isDigit _ (by omega)
  · exact digitChar_isDigit _ (by omega)

/-- Four-digit renderings consist of digits. -/
theorem pad4_digits (n : Nat) (h : n < 10000) :
    ∀ x ∈ pad4 n, x.isDigit = true := by
  intro x hx
  simp [pad4] at hx
  rcases hx with hx | hx | hx | hx <;> subst hx
  · exact digitChar_isDigit _ (by omega)
  · exact digitChar_isDigit _ (by omega)
  · exact digitChar_isDigit _ (by omega)
  · exact digitChar_isDigit _ (by omega)

/-- The decimal rendering of a natural number is never empty. -/
theorem natRepr_ne_nil (n : Nat) : natRepr n ≠ [] := by
  rw [natRepr]
  by_cases h : n < 10
  · simp [h]
  · simp [h]

/-- The decimal rendering of a natural number consists of digits. -/
theorem natRepr_digits (n : Nat) : ∀ x ∈ natRepr n, x.isDigit = true := by
  induction n using Nat.strong_induction_on with
  | _ n ih =>
    intro x hx
    rw [natRepr] at hx
    by_cases h : n < 10
    · simp [h] at hx
      subst hx
      exact digitChar_isDigit _ h
    · simp only [dif_neg h, List.mem_append] at hx
      rcases hx with hx | hx
      · exact ih (n / 10) (Nat.div_lt_self (by omega) (by omega)) x hx
      · simp at hx
        subst hx
        exact digitChar_isDigit _ (by omega)

/-- Formatting a valid date and then parsing it with the same format
recovers the date. -/
theorem parseDate_formatDate (d : Date) (h : validDate d) :
    parseDate (formatDate d) = some d := by
  obtain ⟨h1, h2, h3, h4, h5, h6⟩ := h
  have hd100 : d.day < 100 := by
    have := daysInMonth_le_31 d.month d.year
    omega
  have hday : '-' ∉ pad2 d.day := by
    intro hm
    exact (isDigit_ne_delims _ (pad2_digits d.day hd100 _ hm)).1 rfl
  have hmonth : '-' ∉ pad2 d.month := by
    intro hm
    exact (isDigit_ne_delims _ (pad2_digits d.month (by omega) _ hm)).1 rfl
  have hyear : '-' ∉ pad4 d.year := by
    intro hm
    exact (isDigit_ne_delims _ (pad4_digits d.year (by omega) _ hm)).1 rfl
  rw [parseDate, formatDate, splitOnChar_append _ _ _ hday,
    splitOnChar_append _ _ _ hmonth, splitOnChar_not_mem _ _ hyear]
  simp only [digitsVal_pad2 d.day hd100, digitsVal_pad2 d.month (by omega),
    digitsVal_pad4 d.year (by omega)]
  rw [if_pos ⟨h3, h4, h1, h2, by omega, h6⟩]

/-- The formatted date contains neither file delimiter. -/
theorem formatDate_delimFree (d : Date) (h : validDate d) :
    delimFree (formatDate d) := by
  obtain ⟨h1, h2, h3, h4, h5, h6⟩ := h
  have hmem : ∀ x ∈ formatDate d, x.isDigit = true ∨ x = '-' := by
    intro x hx
    rw [formatDate] at hx
    rcases List.mem_append.mp hx with hx | hx
    · exact Or.inl (pad2_digits d.day
        (by have := daysInMonth_le_31 d.month d.year; omega) x hx)
    · rcases List.mem_cons.mp hx with hx | hx
      · exact Or.inr hx
      · rcases List.mem_append.mp hx with hx | hx
        · exact Or.inl (pad2_digits d.month (by omega) x hx)
        · rcases List.mem_cons.mp hx with hx | hx
          · exact Or.inr hx
          · exact Or.inl (pad4_digits d.year (by omega) x hx)
  constructor
  · intro hm
    rcases hmem _ hm with hd | hd
    · exact (isDigit_ne_delims _ hd).2.1 rfl
    · exact absurd hd (by decide)
  · intro hm
    rcases hmem _ hm with hd | hd
    · exact (isDigit_ne_delims _ hd).2.2 rfl
    · exact absurd hd (by decide)

/-- The serialized fields of a well-formed task, in file order. -/
theorem serializeTask_split (i : Nat) (t : Task) (h : wfTask t) :
    splitOnChar ';' (serializeTask i t) =
      [natRepr i, t.username.data, t.title.data, t.description.data,
       formatDate t.due_date, formatDate t.assigned_date,
       if t.completed then yesChars else noChars] := by
  obtain ⟨hu, ht, hd, hdd, had⟩ := h
  apply splitOnChar_joinWith
  · simp
  · intro f hf
    simp only [List.mem_cons, List.not_mem_nil, or_false] at hf
    rcases hf with hf | hf | hf | hf | hf | hf | hf <;> subst hf
    · intro hm
      exact (isDigit_ne_delims _ (natRepr_digits i _ hm)).2.1 rfl
    · exact hu.1
    · exact ht.1
    · exact hd.1
    · exact (formatDate_delimFree _ hdd).1
    · exact (formatDate_delimFree _ had).1
    · cases t.completed <;> decide

/-- A serialized line contains no newline. -/
theorem serializeTask_no_newline (i : Nat) (t : Task) (h : wfTask t) :
    '\n' ∉ serializeTask i t := by
  obtain ⟨hu, ht, hd, hdd, had⟩ := h
  intro hm
  rcases mem_joinWith _ _ _ hm with hc | ⟨f, hf, hx⟩
  · exact absurd hc (by decide)
  · simp only [List.mem_cons, List.not_mem_nil, or_false] at hf
    rcases hf with hf | hf | hf | hf | hf | hf | hf <;> subst hf
    · exact (isDigit_ne_delims _ (natRepr_digits i _ hx)).2.2 rfl
    · exact hu.2 hx
    · exact ht.2 hx
    · exact hd.2 hx
    · exact (formatDate_delimFree _ hdd).2 hx
    · exact (formatDate_delimFree _ had).2 hx
    · revert hx
      cases t.completed <;> decide

/-- A serialized line is never empty. -/
theorem serializeTask_ne_nil (i : Nat) (t : Task) :
    serializeTask i t ≠ [] := by
  show natRepr i ++ ';' :: _ ≠ []
  simp

/-- Loading the file written for a task list reproduces every record in
order, renumbered from the reader counter; the writer counter only
feeds the ignored stored index. -/
theorem createTask_read_write (ts : List Task) (i j : Nat)
    (h : ∀ t ∈ ts, wfTask t) :
    createTaskAux i (read_tasks_file (writeTasksAux j ts)) =
      some (renumberFrom i ts) := by
  induction ts generalizing i j with
  | nil => rfl
  | cons t ts ih =>
    have hw : wfTask t := h t (by simp)
    have hrest : ∀ t2 ∈ ts, wfTask t2 :=
      fun t2 h2 => h t2 (List.mem_cons_of_mem _ h2)
    have hline : read_tasks_file (writeTasksAux j (t :: ts)) =
        splitOnChar ';' (serializeTask j t) ::
          read_tasks_file (writeTasksAux (j + 1) ts) := by
      rw [writeTasksAux, read_tasks_file,
        splitOnChar_append _ _ _ (serializeTask_no_newline j t hw),
        List.filter_cons]
      have hne : (!(serializeTask j t).isEmpty) = true := by
        simp [List.isEmpty_iff, serializeTask_ne_nil j t]
      rw [if_pos hne, List.map_cons]
      rfl
    rw [hline, serializeTask_split j t hw]
    obtain ⟨num, un, ti, de, dd, ad, cp⟩ := t
    obtain ⟨hu, hti, hde, hdd, had⟩ := hw
    rw [createTaskAux]
    simp only [parseDate_formatDate _ hdd, parseDate_formatDate _ had,
      ih (i + 1) (j + 1) hrest]
    rw [renumberFrom]
    cases cp <;> rfl

/-- Claim C9: persisting a well-formed in-memory task list and reloading
it reproduces the same ordered records with equal username, title,
description, dates and completed flag, renumbered sequentially from
1. -/
theorem c9_write_read_roundtrip (task_list : List Task)
    (h : ∀ t ∈ task_list, wfTask t) :
    create_task_list
        (read_tasks_file (write_new_task_to_tasks_file task_list)) =
      some (renumberFrom 1 task_list) :=
  createTask_read_write task_list 1 1 h

/-- Witness for claim C9: the round trip on the one-task sample list. -/
theorem c9_write_read_roundtrip_witness :
    (∀ t ∈ [tAlice], wfTask t) ∧
    create_task_list (read_tasks_file (write_new_task_to_tasks_file [tAlice])) =
      some (renumberFrom 1 [tAlice]) :=
  ⟨by decide, c9_write_read_roundtrip [tAlice] (by decide)⟩

end TaskManager
